import Mathlib

/-!
Shallow embedding of the FlexiHGT core engine (src/flexihgt/core.py) and proofs
about it.

Modelling conventions:
* Bitscores and thresholds are exact rationals (`ℚ`).  Python computes with IEEE
  doubles; the 4-decimal `format(x, '.4f')` rounding is modelled as exact
  half-even rounding of the rational value, and `float(<4-decimal string>)`
  as that rounded rational.
* Python dicts are modelled as association lists built by repeated assignment
  (`dset`), which reproduces dict semantics exactly: unique keys, last
  assignment wins, first-assignment position kept.  `List.lookup` is dict
  lookup, `d.map (fun p => p.1)` the key view.
* Python sets of strings are `Finset String`.
* The NCBI taxonomy authority (ete3) is external to the repository; it enters
  as oracle parameters `lin : ℤ → Option (List ℤ)` (lineage), and
  `ℤ → Option String` for rank and name lookups, `none` modelling a raised
  exception.  The memoizing wrappers get_lineage/get_rank/get_name are pure
  caches of these oracles.
* `int(float(tid))` (core.py line 334) is modelled by `parseTaxid`: strip
  whitespace, optional sign, digits with an optional single fractional part,
  truncated toward zero.  Scientific notation, underscores in numerals, and
  values large enough for double rounding are outside the model (they do not
  occur in `staxids` columns).
* pandas `.str.split(';')` is modelled by `pySplitSemi`, which follows Python
  `str.split` semantics exactly (splitting "" gives [""]).
-/

/-! ### Python numeric-string primitives -/

/-- Whitespace characters stripped by Python float() parsing. -/
def isPyWs (c : Char) : Bool :=
  c == ' ' || c == '\t' || c == '\n' || c == '\r' || c == '\x0b' || c == '\x0c'

/-- Strip leading and trailing whitespace, as Python float() does. -/
def stripWs (cs : List Char) : List Char :=
  ((cs.dropWhile isPyWs).reverse.dropWhile isPyWs).reverse

/-- Value of a string of decimal digit characters. -/
def digitsVal (cs : List Char) : ℕ :=
  cs.foldl (fun a c => 10 * a + (c.toNat - 48)) 0

/-- Every character is a decimal digit. -/
def allDigits (cs : List Char) : Bool := cs.all (fun c => c.isDigit)

/-- Magnitude part of Python float() syntax without exponent: digits with an
optional single fractional part; the value is truncated toward zero (so the
fractional digits only need to be well-formed). -/
def parseMag (cs : List Char) : Option ℕ :=
  match cs.dropWhile (fun c => ! (c == '.')) with
  | [] =>
      if cs.takeWhile (fun c => ! (c == '.')) ≠ [] ∧
          allDigits (cs.takeWhile (fun c => ! (c == '.'))) then
        some (digitsVal (cs.takeWhile (fun c => ! (c == '.'))))
      else none
  | _ :: fp =>
      if (cs.takeWhile (fun c => ! (c == '.')) ≠ [] ∨ fp ≠ []) ∧
          allDigits (cs.takeWhile (fun c => ! (c == '.'))) ∧ allDigits fp then
        some (digitsVal (cs.takeWhile (fun c => ! (c == '.'))))
      else none

/-- Python `int(float(s))` on a character list: strip whitespace, optional
sign, magnitude truncated toward zero.  `none` models a raised ValueError. -/
def parseIntChars (cs : List Char) : Option ℤ :=
  match stripWs cs with
  | [] => none
  | c :: rest =>
      if c = '-' then (parseMag rest).map (fun v => -(v : ℤ))
      else if c = '+' then (parseMag rest).map (fun v => (v : ℤ))
      else (parseMag (c :: rest)).map (fun v => (v : ℤ))

/-- Python `int(float(tid))` as used at core.py line 334. -/
def parseTaxid (s : String) : Option ℤ := parseIntChars s.data

/-- Decimal digits of a natural number, most significant first (fuel-based so
that it reduces in the kernel). -/
def natCharsAux : ℕ → ℕ → List Char
  | 0, _ => []
  | fuel + 1, n =>
      if n < 10 then [Nat.digitChar n]
      else natCharsAux fuel (n / 10) ++ [Nat.digitChar (n % 10)]

/-- Decimal digit characters of a natural number. -/
def natChars (n : ℕ) : List Char := natCharsAux (n + 1) n

/-- Python `str()` of an integer, as used for the keys of
taxonomy_alignments (core.py lines 356-357) and the query lookup
`str(args.query_tax)` (line 242). -/
def intStr (n : ℤ) : String :=
  if n < 0 then String.mk ('-' :: natChars n.natAbs) else String.mk (natChars n.natAbs)

/-! ### Python str.split(';') -/

/-- Helper for `pySplitSemi`: accumulates the current field in reverse. -/
def splitSemiAux : List Char → List Char → List (List Char)
  | [], acc => [acc.reverse]
  | c :: rest, acc =>
      if c = ';' then acc.reverse :: splitSemiAux rest []
      else splitSemiAux rest (c :: acc)

/-- Python `s.split(';')` (pandas `.str.split(';')`); splitting the empty
string yields [""]. -/
def pySplitSemi (s : String) : List String :=
  (splitSemiAux s.data []).map String.mk

/-- The `.str[-1]` of the split list (core.py line 239): the last taxon id of
the semicolon-joined field.  The split is never empty. -/
def lastTid (s : String) : String := (pySplitSemi s).getLastD ""

/-! ### Python dict model -/

/-- Replace an entry whose key matches (used by `dset` to update in place). -/
def updEntry {α : Type} (k : String) (v : α) (p : String × α) : String × α :=
  if p.1 == k then (k, v) else p

/-- Python dict assignment `d[k] = v`: update in place when the key exists,
else append. -/
def dset {α : Type} (d : List (String × α)) (k : String) (v : α) :
    List (String × α) :=
  if d.any (fun p => p.1 == k) then d.map (updEntry k v)
  else d ++ [(k, v)]

/-- Python dict built from a sequence of key-value assignments, e.g.
`dict(zip(ks, vs))` or a dict comprehension over pairs. -/
def dictOf {α : Type} (ps : List (String × α)) : List (String × α) :=
  ps.foldl (fun d p => dset d p.1 p.2) []

/-- The value of the last pair with the given key, if any. -/
def lastVal {α : Type} (ps : List (String × α)) (k : String) : Option α :=
  ((ps.filter (fun p => p.1 == k)).getLast?).map (fun p => p.2)

/-! ### 4-decimal formatting (format(x, '.4f') and float() of its result) -/

/-- Round to the nearest integer, ties to even (IEEE default used by Python's
float formatting). -/
def halfEvenZ (x : ℚ) : ℤ :=
  if x - x.floor < 1 / 2 then x.floor
  else if 1 / 2 < x - x.floor then x.floor + 1
  else if 2 ∣ x.floor then x.floor else x.floor + 1

/-- The rational value of `float(format(x, '.4f'))`: x rounded to 4 decimal
digits. -/
def round4 (x : ℚ) : ℚ := ((halfEvenZ (x * 10000) : ℤ) : ℚ) / 10000

/-- The fractional digits, zero-padded on the left to width 4. -/
def pad4 (m : ℕ) : List Char :=
  List.replicate (4 - (natChars m).length) '0' ++ natChars m

/-- Python `format(x, '.4f')`.  (For a negative value rounding to zero Python
prints "-0.0000"; with exact rationals there is no signed zero, so that case
prints "0.0000" here.  It is unreachable: bitscores and counts are
nonnegative.) -/
def format4 (x : ℚ) : String :=
  if halfEvenZ (x * 10000) < 0 then
    String.mk ('-' :: (natChars ((halfEvenZ (x * 10000)).natAbs / 10000) ++
      '.' :: pad4 ((halfEvenZ (x * 10000)).natAbs % 10000)))
  else
    String.mk (natChars ((halfEvenZ (x * 10000)).natAbs / 10000) ++
      '.' :: pad4 ((halfEvenZ (x * 10000)).natAbs % 10000))

/-! ### HGT scorer (core.py hgt_calc, lines 182-212) -/

/-- One row of the output table: [gene, max_outgroup_bitscore, Outg_pct,
HGT_index, taxonomy] (core.py line 210).  Outg_pct and HGT_index are the
formatted 4-decimal strings. -/
structure GeneResult where
  gene : String
  bitscore : ℚ
  outPct : String
  hgtIndex : String
  taxonomy : String
deriving DecidableEq

/-- hgt_calc (core.py lines 182-212).  The unused parameters tax_level, names
and taxonomy_alignments (only referenced from commented-out code) are omitted.
`float(HGT_index) >= HGTIndex` compares the re-parsed 4-decimal string, i.e.
the half-even 4-decimal rounding `round4`. -/
def hgt_calc (gene : String) (max_outgroup_bitscore max_recipient_organism_bitscore : ℚ)
    (outgroup_species_number recipient_species_number : ℕ) (HGT : List GeneResult)
    (HGTIndex out_pct bitscore_parameter : ℚ) (donor_taxonomy : String) :
    List GeneResult :=
  HGT ++ [{ gene := gene
            bitscore := max_outgroup_bitscore
            outPct := format4 ((outgroup_species_number : ℚ) /
              ((outgroup_species_number : ℚ) + (recipient_species_number : ℚ)))
            hgtIndex := format4 (max_outgroup_bitscore / max_recipient_organism_bitscore)
            taxonomy :=
              if max_outgroup_bitscore ≥ bitscore_parameter ∧
                  round4 (max_outgroup_bitscore / max_recipient_organism_bitscore) ≥ HGTIndex ∧
                  round4 ((outgroup_species_number : ℚ) /
                    ((outgroup_species_number : ℚ) + (recipient_species_number : ℚ))) ≥ out_pct then
                if donor_taxonomy = "" then "Not available" else donor_taxonomy
              else "No" }]

/-! ### Gene classifier (core.py process_gene, lines 227-307) -/

/-- One row of the diamond result table restricted to the columns process_gene
reads: column 0 (gene id), column 1 (target accession), column 3 (bitscore),
column 6 (semicolon-joined taxon ids; `none` models NaN).  Columns 2, 4, 5
(e-value, alignment length, percent identity) are never read. -/
structure Row where
  gene : String
  acc : String
  bitscore : ℚ
  taxField : Option String
deriving DecidableEq

/-- Lines 234-236: restrict the table to this gene's rows, slice the first 200,
drop rows whose taxon-id column is NaN. -/
def geneRows (table : List Row) (gene : String) : List Row :=
  ((table.filter (fun r => r.gene == gene)).take 200).filter (fun r => r.taxField.isSome)

/-- Lines 237-239: the per-row (accession, last taxon id) pairs
`zip(accession_number, taxids)`.  Rows are already NaN-free here. -/
def accTaxPairs (rows : List Row) : List (String × String) :=
  rows.map (fun r => (r.acc, lastTid (r.taxField.getD "")))

/-- Line 240: `accession_to_taxid = dict(zip(accession_number, taxids))`. -/
def accToTaxid (rows : List Row) : List (String × String) :=
  dictOf (accTaxPairs rows)

/-- The (accession, bitscore) pairs `zip(accession_number, accession_bitscore)`
(lines 269-270). -/
def bitPairs (rows : List Row) : List (String × ℚ) :=
  rows.map (fun r => (r.acc, r.bitscore))

/-- Lines 269-270: the dict comprehension
`{acc: bs for acc, bs in zip(...) if acc in partition_accessions}`. -/
def partBitDict (rows : List Row) (part : Finset String) : List (String × ℚ) :=
  dictOf ((bitPairs rows).filter (fun p => decide (p.1 ∈ part)))

/-- Lines 271-272: `max(d.values()) if d else 0`. -/
def maxValsD (d : List (String × ℚ)) : ℚ :=
  match d.map (fun p => p.2) with
  | [] => 0
  | v :: vs => vs.foldl max v

/-- Line 287: `max(d, key=d.get)` — the first key attaining the maximal value
in dict order; `none` when the dict is empty. -/
def argmaxKey (d : List (String × ℚ)) : Option (String × ℚ) :=
  d.foldl (fun best p =>
    match best with
    | none => some p
    | some b => if b.2 < p.2 then some p else some b) none

/-- Lines 263/266: `names.get(taxonomy_alignment.get('species'), 'Unknown')`.
A missing 'species' rank gives `None`, which `names.get` maps to 'Unknown'. -/
def speciesName (ta : List (String × ℤ)) (names : ℤ → Option String) : String :=
  match List.lookup "species" ta with
  | none => "Unknown"
  | some sid => (names sid).getD "Unknown"

/-- The classifier state: (recipient_accession, recipient_species,
outgroup_accession, outgroup_species) as sets (lines 251-254). -/
abbrev PartState := Finset String × Finset String × Finset String × Finset String

/-- One iteration of the loop over accession_to_taxid.items()
(lines 256-266): skip accessions whose taxon id is not a key of
taxonomy_alignments, else classify as recipient when the alignment has the
target rank mapping to the query's ancestor, otherwise as outgroup. -/
def classifyStep (taxonomy_alignments : List (String × List (String × ℤ)))
    (names : ℤ → Option String) (tax_level : String) (gene_taxlevel : ℤ)
    (st : PartState) (p : String × String) : PartState :=
  match List.lookup p.2 taxonomy_alignments with
  | none => st
  | some ta =>
      if List.lookup tax_level ta = some gene_taxlevel then
        (insert p.1 st.1, insert (speciesName ta names) st.2.1, st.2.2.1, st.2.2.2)
      else
        (st.1, st.2.1, insert p.1 st.2.2.1, insert (speciesName ta names) st.2.2.2)

/-- The full classification loop (lines 251-266), starting from empty sets. -/
def classify (taxonomy_alignments : List (String × List (String × ℤ)))
    (names : ℤ → Option String) (tax_level : String) (gene_taxlevel : ℤ)
    (items : List (String × String)) : PartState :=
  items.foldl (classifyStep taxonomy_alignments names tax_level gene_taxlevel)
    (∅, ∅, ∅, ∅)

/-- Lines 284-292: resolve the donor taxonomy label from the strongest
outgroup accession; every failure falls back to 'Not available'. -/
def donorTaxonomyOf (taxonomy_alignments : List (String × List (String × ℤ)))
    (names : ℤ → Option String) (tax_level : String)
    (accession_to_taxid : List (String × String)) (outBit : List (String × ℚ)) :
    String :=
  match argmaxKey outBit with
  | none => "Not available"
  | some p =>
      match List.lookup p.1 accession_to_taxid with
      | none => "Not available"
      | some tid =>
          match List.lookup tid taxonomy_alignments with
          | none => "Not available"
          | some da =>
              match List.lookup tax_level da with
              | none => "Not available"
              | some dt => (names dt).getD "Not available"

/-- process_gene (core.py lines 227-307).  A KeyError at
`taxonomy_alignments[str(args.query_tax)]` is caught by the enclosing
try/except and yields None, as does a missing target rank for the query and a
zero max bitscore in either partition.  `hgt_result[0] if hgt_result else
None` is the head of the list returned by hgt_calc. -/
def process_gene (table : List Row) (gene : String) (query_tax : ℤ)
    (tax_level : String) (HGTIndex out_pct bitscore_parameter : ℚ)
    (taxonomy_alignments : List (String × List (String × ℤ)))
    (names : ℤ → Option String) : Option GeneResult :=
  match List.lookup (intStr query_tax) taxonomy_alignments with
  | none => none
  | some qAlign =>
      match List.lookup tax_level qAlign with
      | none => none
      | some gene_taxlevel =>
          let rows := geneRows table gene
          let a2t := accToTaxid rows
          let st := classify taxonomy_alignments names tax_level gene_taxlevel a2t
          let outBit := partBitDict rows st.2.2.1
          let maxRec := maxValsD (partBitDict rows st.1)
          let maxOut := maxValsD outBit
          if maxOut ≠ 0 ∧ maxRec ≠ 0 then
            (hgt_calc gene maxOut maxRec st.2.2.2.card st.2.1.card []
              HGTIndex out_pct bitscore_parameter
              (donorTaxonomyOf taxonomy_alignments names tax_level a2t outBit)).head?
          else none

/-! ### Taxonomy index builder (core.py fetch_all_taxonomy_data, lines 324-358) -/

/-- Lines 328-338: the unique taxon ids referenced anywhere in the taxon-id
column — every element of every semicolon-split list (`.explode()`), parsed by
`int(float(tid))`, empty and unparseable entries skipped — plus the query
taxon id.  (Python keeps them in an unordered set; membership is what
matters downstream.) -/
def uniqueTaxids (cols : List String) (query_taxid : ℤ) : List ℤ :=
  List.insert query_taxid
    ((cols.flatMap (fun s => pySplitSemi s)).filterMap
      (fun tid => if tid = "" then none else parseTaxid tid)).dedup

/-- Lines 356-357: the alignment entry of one taxid —
`{ranks[tid]: tid for tid in lineage if tid in ranks}` followed by the forced
`[ranks.get(taxid, 'no rank')] = taxid`.  The ranks dict is the rank oracle
restricted to the lineage closure, which contains every queried id, so the
oracle is used directly. -/
def buildAlign (ranks : ℤ → Option String) (taxid : ℤ) (lineage : List ℤ) :
    List (String × ℤ) :=
  dset (dictOf (lineage.filterMap (fun t => (ranks t).map (fun r => (r, t)))))
    ((ranks taxid).getD "no rank") taxid

/-- Lines 339-358: taxonomy_alignments, keyed by `str(taxid)`, one entry per
unique taxid whose lineage lookup succeeds. -/
def taxonomyAlignmentsOf (cols : List String) (query_taxid : ℤ)
    (lin : ℤ → Option (List ℤ)) (ranks : ℤ → Option String) :
    List (String × List (String × ℤ)) :=
  (uniqueTaxids cols query_taxid).filterMap
    (fun t => (lin t).map (fun L => (intStr t, buildAlign ranks t L)))

/-- Line 328-329: the taxon-id column of the full table with NaN replaced by
the empty string (`fillna('')`). -/
def colsOfTable (table : List Row) : List String :=
  table.map (fun r => r.taxField.getD "")

/-! ### Specification predicates used to state the claims -/

/-- A hit pair (accession, raw taxid string) that the loop classifies as
recipient: its taxon's alignment has the target rank mapping to the query's
ancestor. -/
def isRecipHit (taxonomy_alignments : List (String × List (String × ℤ)))
    (tax_level : String) (gene_taxlevel : ℤ) (p : String × String) : Bool :=
  match List.lookup p.2 taxonomy_alignments with
  | none => false
  | some ta => List.lookup tax_level ta == some gene_taxlevel

/-- A hit pair that the loop classifies as outgroup: classifiable but not
recipient. -/
def isOutHit (taxonomy_alignments : List (String × List (String × ℤ)))
    (tax_level : String) (gene_taxlevel : ℤ) (p : String × String) : Bool :=
  match List.lookup p.2 taxonomy_alignments with
  | none => false
  | some ta => ! (List.lookup tax_level ta == some gene_taxlevel)

/-- The species name recorded for a classified hit pair. -/
def hitSpecies (taxonomy_alignments : List (String × List (String × ℤ)))
    (names : ℤ → Option String) (p : String × String) : String :=
  match List.lookup p.2 taxonomy_alignments with
  | none => "Unknown"
  | some ta => speciesName ta names

/-- The hit's taxon has a species-level ancestor with a resolvable name. -/
def speciesResolvable (taxonomy_alignments : List (String × List (String × ℤ)))
    (names : ℤ → Option String) (p : String × String) : Bool :=
  match List.lookup p.2 taxonomy_alignments with
  | none => false
  | some ta =>
      match List.lookup "species" ta with
      | none => false
      | some sid => (names sid).isSome

/-! ### Lemmas: decimal rendering and parsing round-trip -/

theorem digitChar_isDigit {k : ℕ} (h : k < 10) : (Nat.digitChar k).isDigit = true := by
  interval_cases k <;> decide

theorem digitChar_toNat {k : ℕ} (h : k < 10) : (Nat.digitChar k).toNat = 48 + k := by
  interval_cases k <;> decide

theorem takeWhile_all {α : Type} {p : α → Bool} :
    ∀ {ds : List α}, (∀ c ∈ ds, p c = true) →
      ds.takeWhile p = ds ∧ ds.dropWhile p = [] := by
  intro ds h
  induction ds with
  | nil => simp
  | cons c t ih =>
      have hc := h c (by simp)
      have ht := ih (fun x hx => h x (by simp [hx]))
      simp [List.takeWhile_cons, List.dropWhile_cons, hc, ht.1, ht.2]

theorem digitsVal_append_digit (cs : List Char) (c : Char) :
    digitsVal (cs ++ [c]) = 10 * digitsVal cs + (c.toNat - 48) := by
  unfold digitsVal
  rw [List.foldl_append]
  rfl

theorem natCharsAux_spec :
    ∀ fuel n, n < fuel →
      natCharsAux fuel n ≠ [] ∧ allDigits (natCharsAux fuel n) = true ∧
        digitsVal (natCharsAux fuel n) = n := by
  intro fuel
  induction fuel with
  | zero => intro n h; omega
  | succ f ih =>
      intro n h
      by_cases h10 : n < 10
      · refine ⟨by simp [natCharsAux, h10], ?_, ?_⟩
        · simp [natCharsAux, h10, allDigits, digitChar_isDigit h10]
        · simp [natCharsAux, h10, digitsVal, digitChar_toNat h10]
      · have hlt : n / 10 < f := by
          have h1 : n / 10 < n := Nat.div_lt_self (by omega) (by omega)
          omega
        obtain ⟨h1, h2, h3⟩ := ih (n / 10) hlt
        refine ⟨by simp [natCharsAux, h10], ?_, ?_⟩
        · simp only [natCharsAux, if_neg h10]
          simp [allDigits] at h2 ⊢
          exact ⟨h2, digitChar_isDigit (Nat.mod_lt _ (by omega))⟩
        · simp only [natCharsAux, if_neg h10]
          rw [digitsVal_append_digit, h3, digitChar_toNat (Nat.mod_lt _ (by omega))]
          omega

theorem natChars_spec (n : ℕ) :
    natChars n ≠ [] ∧ allDigits (natChars n) = true ∧ digitsVal (natChars n) = n :=
  natCharsAux_spec (n + 1) n (Nat.lt_succ_self n)

theorem isDigit_not_pyWs {c : Char} (h : c.isDigit = true) : isPyWs c = false := by
  by_contra hc
  have hc' : isPyWs c = true := by
    cases hcc : isPyWs c
    · exact absurd hcc hc
    · rfl
  unfold isPyWs at hc'
  simp only [Bool.or_eq_true, beq_iff_eq] at hc'
  rcases hc' with ((((h1 | h1) | h1) | h1) | h1) | h1 <;>
    (subst h1; exact absurd h (by decide))

theorem isDigit_ne {c d : Char} (h : c.isDigit = true) (hd : d.isDigit = false) :
    c ≠ d := by
  intro he
  subst he
  rw [h] at hd
  cases hd

theorem stripWs_eq_self {cs : List Char} (h : ∀ c ∈ cs, isPyWs c = false) :
    stripWs cs = cs := by
  have h1 : ∀ ds : List Char, (∀ c ∈ ds, isPyWs c = false) →
      ds.dropWhile isPyWs = ds := by
    intro ds hds
    cases ds with
    | nil => rfl
    | cons c t => simp [List.dropWhile_cons, hds c (by simp)]
  unfold stripWs
  rw [h1 cs h, h1 cs.reverse (fun c hc => h c (List.mem_reverse.mp hc)),
    List.reverse_reverse]

theorem parseMag_digits {cs : List Char} (h0 : cs ≠ []) (h : allDigits cs = true) :
    parseMag cs = some (digitsVal cs) := by
  have hp : ∀ c ∈ cs, (! (c == '.')) = true := by
    intro c hc
    have hd : c.isDigit = true := by
      have := (List.all_eq_true.mp h) c hc
      simpa using this
    have : c ≠ '.' := isDigit_ne hd (by decide)
    simp [this]
  obtain ⟨ht, hd⟩ := takeWhile_all hp
  unfold parseMag
  rw [hd, ht]
  simp [h0, h]

theorem parseTaxid_intStr (n : ℤ) : parseTaxid (intStr n) = some n := by
  obtain ⟨hne, hdig, hval⟩ := natChars_spec n.natAbs
  have hdig' : ∀ c ∈ natChars n.natAbs, c.isDigit = true := by
    intro c hc
    have := (List.all_eq_true.mp hdig) c hc
    simpa using this
  by_cases hn : n < 0
  · show parseIntChars (intStr n).data = some n
    rw [intStr, if_pos hn]
    show parseIntChars ('-' :: natChars n.natAbs) = some n
    rw [parseIntChars, stripWs_eq_self ?hws]
    case hws =>
      intro c hc
      rcases List.mem_cons.mp hc with h1 | h1
      · subst h1; decide
      · exact isDigit_not_pyWs (hdig' c h1)
    show (parseMag (natChars n.natAbs)).map (fun v => -(v : ℤ)) = some n
    rw [parseMag_digits hne hdig, hval]
    show some (-(n.natAbs : ℤ)) = some n
    congr 1
    omega
  · show parseIntChars (intStr n).data = some n
    rw [intStr, if_neg hn]
    show parseIntChars (natChars n.natAbs) = some n
    rw [parseIntChars]
    rw [stripWs_eq_self (fun c hc => isDigit_not_pyWs (hdig' c hc))]
    cases hcs : natChars n.natAbs with
    | nil => exact absurd hcs hne
    | cons c t =>
        have hcd : c.isDigit = true := hdig' c (by rw [hcs]; simp)
        have hc1 : ¬(c = '-') := isDigit_ne hcd (by decide)
        have hc2 : ¬(c = '+') := isDigit_ne hcd (by decide)
        show (if c = '-' then (parseMag t).map (fun v => -(v : ℤ))
              else if c = '+' then (parseMag t).map (fun v => (v : ℤ))
              else (parseMag (c :: t)).map (fun v => (v : ℤ))) = some n
        rw [if_neg hc1, if_neg hc2, ← hcs, parseMag_digits hne hdig, hval]
        show some ((n.natAbs : ℤ)) = some n
        congr 1
        omega

theorem intStr_injective : Function.Injective intStr := by
  intro a b h
  have ha := parseTaxid_intStr a
  rw [h, parseTaxid_intStr b] at ha
  exact (Option.some_inj.mp ha).symm

/-! ### Lemmas: the Python dict model -/

theorem beq_false_of_ne_str {a b : String} (h : ¬a = b) : (a == b) = false := by
  cases hb : a == b
  · rfl
  · exact absurd (by simpa using hb) h

theorem lookup_cons_pair {α : Type} (k qk : String) (qv : α) (t : List (String × α)) :
    List.lookup k ((qk, qv) :: t) = if k = qk then some qv else List.lookup k t := by
  by_cases h : k = qk
  · subst h
    simp [List.lookup]
  · simp [List.lookup, beq_false_of_ne_str h, h]

theorem updEntry_eq_upd {α : Type} {k' : String} (v : α) {p : String × α}
    (h : p.1 = k') : updEntry k' v p = (k', v) := by
  simp [updEntry, h]

theorem updEntry_eq_self {α : Type} {k' : String} (v : α) {p : String × α}
    (h : ¬p.1 = k') : updEntry k' v p = p := by
  simp [updEntry, beq_false_of_ne_str h]

theorem lookup_map_update {α : Type} {k k' : String} (v : α) (hne : k ≠ k') :
    ∀ d : List (String × α),
      List.lookup k (d.map (updEntry k' v)) = List.lookup k d := by
  intro d
  induction d with
  | nil => rfl
  | cons q t ih =>
      obtain ⟨qk, qv⟩ := q
      by_cases hq : qk = k'
      · rw [List.map_cons, updEntry_eq_upd v hq, lookup_cons_pair, lookup_cons_pair,
          if_neg hne, if_neg (hq ▸ hne), ih]
      · rw [List.map_cons, updEntry_eq_self v hq, lookup_cons_pair, lookup_cons_pair, ih]

theorem lookup_dset_self {α : Type} (k : String) (v : α) :
    ∀ d : List (String × α), List.lookup k (dset d k v) = some v := by
  intro d
  induction d with
  | nil =>
      rw [dset, if_neg (by simp), List.nil_append, lookup_cons_pair, if_pos rfl]
  | cons q t ih =>
      obtain ⟨qk, qv⟩ := q
      by_cases hq : qk = k
      · have hany : (((qk, qv) :: t).any fun p => p.1 == k) = true := by
          simp [List.any_cons, hq]
        rw [dset, if_pos hany, List.map_cons, updEntry_eq_upd v hq,
          lookup_cons_pair, if_pos rfl]
      · have hbq : (qk == k) = false := beq_false_of_ne_str hq
        cases hany : t.any (fun p => p.1 == k) with
        | true =>
            have hany' : (((qk, qv) :: t).any fun p => p.1 == k) = true := by
              simp [List.any_cons, hany]
            have hdt : dset t k v = t.map (updEntry k v) := by
              rw [dset, if_pos hany]
            rw [dset, if_pos hany', List.map_cons, updEntry_eq_self v hq,
              lookup_cons_pair, if_neg (fun he => hq he.symm), ← hdt, ih]
        | false =>
            have hany' : (((qk, qv) :: t).any fun p => p.1 == k) = false := by
              simp [List.any_cons, hany, hbq]
            have hdt : dset t k v = t ++ [(k, v)] := by
              rw [dset, if_neg (by simp [hany])]
            rw [dset, if_neg (by simp [hany']), List.cons_append,
              lookup_cons_pair, if_neg (fun he => hq he.symm), ← hdt, ih]

theorem lookup_dset_ne {α : Type} {k k' : String} (v : α) (hne : k ≠ k') :
    ∀ d : List (String × α), List.lookup k (dset d k' v) = List.lookup k d := by
  intro d
  induction d with
  | nil =>
      rw [dset, if_neg (by simp), List.nil_append, lookup_cons_pair, if_neg hne]
  | cons q t ih =>
      obtain ⟨qk, qv⟩ := q
      cases hany : (((qk, qv) :: t).any fun p => p.1 == k') with
      | true =>
          rw [dset, if_pos hany]
          exact lookup_map_update v hne _
      | false =>
          have hanyt : (t.any fun p => p.1 == k') = false := by
            rw [List.any_cons] at hany
            exact (Bool.or_eq_false_iff.mp hany).2
          have hdt : dset t k' v = t ++ [(k', v)] := by
            rw [dset, if_neg (by simp [hanyt])]
          rw [dset, if_neg (by simp [hany]), List.cons_append,
            lookup_cons_pair, lookup_cons_pair, ← hdt]
          by_cases hk : k = qk
          · rw [if_pos hk, if_pos hk]
          · rw [if_neg hk, if_neg hk, ih]

theorem lookup_dset {α : Type} (k k' : String) (v : α) (d : List (String × α)) :
    List.lookup k (dset d k' v) = if k = k' then some v else List.lookup k d := by
  by_cases hk : k = k'
  · subst hk
    rw [if_pos rfl, lookup_dset_self]
  · rw [if_neg hk, lookup_dset_ne v hk]

theorem dictOf_append_single {α : Type} (ps : List (String × α)) (p : String × α) :
    dictOf (ps ++ [p]) = dset (dictOf ps) p.1 p.2 := by
  unfold dictOf
  rw [List.foldl_append]
  rfl

theorem lookup_dictOf {α : Type} (k : String) :
    ∀ ps : List (String × α), List.lookup k (dictOf ps) = lastVal ps k := by
  intro ps
  induction ps using List.reverseRecOn with
  | nil => rfl
  | append_singleton ps p ih =>
      obtain ⟨pk, pv⟩ := p
      rw [dictOf_append_single, lookup_dset]
      unfold lastVal
      rw [List.filter_append]
      by_cases hk : k = pk
      · subst hk
        simp only [if_pos rfl, List.filter_cons, beq_self_eq_true, if_true,
          List.filter_nil]
        rw [List.getLast?_concat]
        rfl
      · have hb : (pk == k) = false := beq_false_of_ne_str (fun he => hk he.symm)
        simp only [if_neg hk, List.filter_cons, hb, Bool.false_eq_true, if_false,
          List.filter_nil, List.append_nil]
        rw [ih]
        rfl

theorem updEntry_fst {α : Type} (k' : String) (v : α) (p : String × α) :
    (updEntry k' v p).1 = p.1 := by
  by_cases h : p.1 = k'
  · rw [updEntry_eq_upd v h, h]
  · rw [updEntry_eq_self v h]

theorem dset_map_fst_of_mem {α : Type} {d : List (String × α)} {k : String}
    (h : d.any (fun p => p.1 == k) = true) (v : α) :
    (dset d k v).map (fun p => p.1) = d.map (fun p => p.1) := by
  rw [dset, if_pos h, List.map_map]
  apply List.map_congr_left
  intro p _
  exact updEntry_fst k v p

theorem dset_map_fst_of_not_mem {α : Type} {d : List (String × α)} {k : String}
    (h : d.any (fun p => p.1 == k) = false) (v : α) :
    (dset d k v).map (fun p => p.1) = d.map (fun p => p.1) ++ [k] := by
  rw [dset, if_neg (by simp [h]), List.map_append]
  rfl

theorem not_mem_keys_of_any_false {α : Type} {d : List (String × α)} {k : String}
    (h : d.any (fun p => p.1 == k) = false) : k ∉ d.map (fun p => p.1) := by
  intro hmem
  obtain ⟨p, hp, hpk⟩ := List.mem_map.mp hmem
  have := List.any_eq_false.mp h p hp
  rw [hpk] at this
  simp at this

theorem dictOf_fst_nodup {α : Type} :
    ∀ ps : List (String × α), ((dictOf ps).map (fun p => p.1)).Nodup := by
  intro ps
  induction ps using List.reverseRecOn with
  | nil => simp [dictOf]
  | append_singleton ps p ih =>
      rw [dictOf_append_single]
      cases hany : (dictOf ps).any (fun q => q.1 == p.1) with
      | true => rw [dset_map_fst_of_mem hany]; exact ih
      | false =>
          rw [dset_map_fst_of_not_mem hany]
          refine List.Nodup.append ih (List.nodup_singleton _) ?_
          intro x hx hx1
          rw [List.mem_singleton] at hx1
          subst hx1
          exact not_mem_keys_of_any_false hany hx

theorem mem_of_lookup_eq_some {α : Type} {k : String} {v : α} :
    ∀ {l : List (String × α)}, List.lookup k l = some v → (k, v) ∈ l := by
  intro l
  induction l with
  | nil => intro h; cases h
  | cons q t ih =>
      obtain ⟨qk, qv⟩ := q
      rw [lookup_cons_pair]
      intro h
      by_cases hb : k = qk
      · rw [if_pos hb] at h
        have h2 : qv = v := by simpa using h
        subst hb; subst h2
        exact List.mem_cons_self _ _
      · rw [if_neg hb] at h
        exact List.mem_cons_of_mem _ (ih h)

theorem lookup_eq_some_of_mem_nodup {α : Type} {k : String} {v : α} :
    ∀ {l : List (String × α)}, (l.map (fun p => p.1)).Nodup → (k, v) ∈ l →
      List.lookup k l = some v := by
  intro l
  induction l with
  | nil => intro _ h; cases h
  | cons q t ih =>
      obtain ⟨qk, qv⟩ := q
      intro hnd hmem
      rw [List.map_cons, List.nodup_cons] at hnd
      rw [lookup_cons_pair]
      rcases List.mem_cons.mp hmem with h1 | h1
      · injection h1 with hk hv
        subst hk; subst hv
        rw [if_pos rfl]
      · have hkt : k ∈ t.map (fun p => p.1) :=
          List.mem_map.mpr ⟨(k, v), h1, rfl⟩
        have hne : ¬k = qk := by
          intro he
          subst he
          exact hnd.1 hkt
        rw [if_neg hne]
        exact ih hnd.2 h1

theorem keys_nodup_val_eq {α : Type} {l : List (String × α)} {a : String} {x y : α}
    (hnd : (l.map (fun p => p.1)).Nodup) (hx : (a, x) ∈ l) (hy : (a, y) ∈ l) :
    x = y := by
  have h1 := lookup_eq_some_of_mem_nodup hnd hx
  have h2 := lookup_eq_some_of_mem_nodup hnd hy
  rw [h1] at h2
  exact Option.some_inj.mp h2

theorem lastVal_eq_none {α : Type} {ps : List (String × α)} {k : String}
    (h : ∀ p ∈ ps, (p.1 == k) = false) : lastVal ps k = none := by
  unfold lastVal
  rw [List.filter_eq_nil_iff.mpr (by intro p hp; simp [h p hp])]
  rfl

/-! ### Lemmas: the classification loop -/

theorem classify_foldl_eq (aligns : List (String × List (String × ℤ)))
    (names : ℤ → Option String) (tl : String) (gtl : ℤ) :
    ∀ (items : List (String × String)) (st : PartState),
      items.foldl (classifyStep aligns names tl gtl) st
      = (st.1 ∪ ((items.filter (isRecipHit aligns tl gtl)).map (fun p => p.1)).toFinset,
         st.2.1 ∪ ((items.filter (isRecipHit aligns tl gtl)).map (hitSpecies aligns names)).toFinset,
         st.2.2.1 ∪ ((items.filter (isOutHit aligns tl gtl)).map (fun p => p.1)).toFinset,
         st.2.2.2 ∪ ((items.filter (isOutHit aligns tl gtl)).map (hitSpecies aligns names)).toFinset) := by
  intro items
  induction items with
  | nil =>
      intro st
      obtain ⟨A, B, C, D⟩ := st
      simp
  | cons p rest ih =>
      intro st
      rw [List.foldl_cons, ih]
      obtain ⟨A, B, C, D⟩ := st
      cases hta : List.lookup p.2 aligns with
      | none =>
          have h1 : isRecipHit aligns tl gtl p = false := by
            unfold isRecipHit; rw [hta]
          have h2 : isOutHit aligns tl gtl p = false := by
            unfold isOutHit; rw [hta]
          have hst : classifyStep aligns names tl gtl (A, B, C, D) p = (A, B, C, D) := by
            unfold classifyStep; rw [hta]
          rw [hst]
          simp [List.filter_cons, h1, h2]
      | some ta =>
          have hsp : hitSpecies aligns names p = speciesName ta names := by
            unfold hitSpecies; rw [hta]
          by_cases hm : List.lookup tl ta = some gtl
          · have h1 : isRecipHit aligns tl gtl p = true := by
              unfold isRecipHit; rw [hta]; simp [hm]
            have h2 : isOutHit aligns tl gtl p = false := by
              unfold isOutHit; rw [hta]; simp [hm]
            have hst : classifyStep aligns names tl gtl (A, B, C, D) p
                = (insert p.1 A, insert (speciesName ta names) B, C, D) := by
              unfold classifyStep; rw [hta]; simp [hm]
            rw [hst]
            simp [List.filter_cons, h1, h2, hsp, Finset.insert_union, Finset.union_insert]
          · have h1 : isRecipHit aligns tl gtl p = false := by
              unfold isRecipHit; rw [hta]; simp [hm]
            have h2 : isOutHit aligns tl gtl p = true := by
              unfold isOutHit; rw [hta]; simp [hm]
            have hst : classifyStep aligns names tl gtl (A, B, C, D) p
                = (A, B, insert p.1 C, insert (speciesName ta names) D) := by
              unfold classifyStep; rw [hta]; simp [hm]
            rw [hst]
            simp [List.filter_cons, h1, h2, hsp, Finset.insert_union, Finset.union_insert]

theorem classify_eq (aligns : List (String × List (String × ℤ)))
    (names : ℤ → Option String) (tl : String) (gtl : ℤ)
    (items : List (String × String)) :
    classify aligns names tl gtl items
    = (((items.filter (isRecipHit aligns tl gtl)).map (fun p => p.1)).toFinset,
       ((items.filter (isRecipHit aligns tl gtl)).map (hitSpecies aligns names)).toFinset,
       ((items.filter (isOutHit aligns tl gtl)).map (fun p => p.1)).toFinset,
       ((items.filter (isOutHit aligns tl gtl)).map (hitSpecies aligns names)).toFinset) := by
  unfold classify
  rw [classify_foldl_eq]
  simp

/-! ### Small list and maximum helpers -/

theorem maxValsD_nil : maxValsD [] = 0 := rfl

theorem dictOf_nil {α : Type} : dictOf ([] : List (String × α)) = [] := rfl

theorem exists_of_filter_ne_nil {α : Type} {p : α → Bool} {l : List α}
    (h : l.filter p ≠ []) : ∃ a ∈ l, p a = true := by
  cases hf : l.filter p with
  | nil => exact absurd hf h
  | cons a t =>
      have ha : a ∈ l.filter p := by rw [hf]; exact List.mem_cons_self _ _
      rw [List.mem_filter] at ha
      exact ⟨a, ha.1, ha.2⟩

theorem toFinset_map_nonempty {β : Type} [DecidableEq β] {l : List (String × String)}
    {f g : (String × String) → β} (h : (l.map f).toFinset.Nonempty) :
    (l.map g).toFinset.Nonempty := by
  obtain ⟨x, hx⟩ := h
  rw [List.mem_toFinset] at hx
  obtain ⟨p, hp, _⟩ := List.mem_map.mp hx
  exact ⟨g p, by rw [List.mem_toFinset]; exact List.mem_map.mpr ⟨p, hp, rfl⟩⟩

/-! ### Lemmas: the taxonomy index -/

theorem mem_uniqueTaxids {cols : List String} {q n : ℤ} :
    n ∈ uniqueTaxids cols q ↔
      n = q ∨ ∃ s ∈ cols.flatMap (fun c => pySplitSemi c),
        s ≠ "" ∧ parseTaxid s = some n := by
  unfold uniqueTaxids
  rw [List.mem_insert_iff, List.mem_dedup, List.mem_filterMap]
  constructor
  · rintro (h | ⟨s, hs, hp⟩)
    · exact Or.inl h
    · by_cases he : s = ""
      · rw [if_pos he] at hp; cases hp
      · rw [if_neg he] at hp
        exact Or.inr ⟨s, hs, he, hp⟩
  · rintro (h | ⟨s, hs, he, hp⟩)
    · exact Or.inl h
    · exact Or.inr ⟨s, hs, by rw [if_neg he]; exact hp⟩

theorem uniqueTaxids_nodup (cols : List String) (q : ℤ) :
    (uniqueTaxids cols q).Nodup := by
  unfold uniqueTaxids
  exact (List.nodup_dedup _).insert

theorem taxAlign_keys_nodup (cols : List String) (q : ℤ)
    (lin : ℤ → Option (List ℤ)) (rk : ℤ → Option String) :
    ((taxonomyAlignmentsOf cols q lin rk).map (fun p => p.1)).Nodup := by
  unfold taxonomyAlignmentsOf
  rw [List.map_filterMap]
  refine List.Nodup.filterMap ?_ (uniqueTaxids_nodup cols q)
  intro a a' b hb hb'
  simp only [Option.map_map, Option.mem_def] at hb hb'
  have h1 : intStr a = b := by
    cases ha : lin a with
    | none => rw [ha] at hb; simp at hb
    | some La => rw [ha] at hb; simpa using hb
  have h2 : intStr a' = b := by
    cases ha' : lin a' with
    | none => rw [ha'] at hb'; simp at hb'
    | some La' => rw [ha'] at hb'; simpa using hb'
  exact intStr_injective (h1.trans h2.symm)

theorem lookup_taxAlign_some {cols : List String} {q : ℤ}
    {lin : ℤ → Option (List ℤ)} {rk : ℤ → Option String} {t : ℤ} {L : List ℤ}
    (ht : t ∈ uniqueTaxids cols q) (hl : lin t = some L) :
    List.lookup (intStr t) (taxonomyAlignmentsOf cols q lin rk) =
      some (buildAlign rk t L) := by
  apply lookup_eq_some_of_mem_nodup (taxAlign_keys_nodup cols q lin rk)
  unfold taxonomyAlignmentsOf
  rw [List.mem_filterMap]
  exact ⟨t, ht, by rw [hl]; rfl⟩

theorem lookup_taxAlign_none {cols : List String} {q : ℤ}
    {lin : ℤ → Option (List ℤ)} {rk : ℤ → Option String} {s : String} {n : ℤ}
    (hp : parseTaxid s = some n) (hne : s ≠ intStr n) :
    List.lookup s (taxonomyAlignmentsOf cols q lin rk) = none := by
  cases hlk : List.lookup s (taxonomyAlignmentsOf cols q lin rk) with
  | none => rfl
  | some al =>
      exfalso
      have hmem := mem_of_lookup_eq_some hlk
      unfold taxonomyAlignmentsOf at hmem
      rw [List.mem_filterMap] at hmem
      obtain ⟨t, _, hmap⟩ := hmem
      cases hlin : lin t with
      | none => rw [hlin] at hmap; cases hmap
      | some L =>
          rw [hlin] at hmap
          have h2 : (intStr t, buildAlign rk t L) = (s, al) :=
            Option.some_inj.mp hmap
          have hkey : intStr t = s := congrArg Prod.fst h2
          rw [← hkey, parseTaxid_intStr] at hp
          have ht : t = n := Option.some_inj.mp hp
          subst ht
          exact hne hkey.symm

theorem rankPairs_filter (rk : ℤ → Option String) (r : String) :
    ∀ L : List ℤ,
      (L.filterMap (fun t => (rk t).map (fun rr => (rr, t)))).filter
          (fun p => p.1 == r)
      = (L.filter (fun t => rk t == some r)).map (fun t => (r, t)) := by
  intro L
  induction L with
  | nil => rfl
  | cons t T ih =>
      cases hr : rk t with
      | none =>
          rw [List.filterMap_cons_none (by simp [hr]), List.filter_cons, ih]
          have : (rk t == some r) = false := by rw [hr]; rfl
          rw [this]
          simp
      | some rr =>
          rw [List.filterMap_cons_some (f := fun x => (rk x).map (fun rr => (rr, x)))
            (show (fun x => (rk x).map (fun rr => (rr, x))) t = some (rr, t) by simp [hr])]
          by_cases hrr : rr = r
          · subst hrr
            rw [List.filter_cons, List.filter_cons]
            have h1 : ((rr, t).1 == rr) = true := by simp
            have h2 : (rk t == some rr) = true := by rw [hr]; simp
            rw [h1, h2]
            simp only [if_true, List.map_cons]
            rw [ih]
          · rw [List.filter_cons, List.filter_cons]
            have h1 : ((rr, t).1 == r) = false := by
              simp only [beq_eq_false_iff_ne]
              exact hrr
            have h2 : (rk t == some r) = false := by
              rw [hr]
              simp [hrr]
            rw [h1, h2]
            simp only [Bool.false_eq_true, if_false]
            exact ih

/-! ### Lemmas: 4-decimal rounding at integer points -/

theorem ratFloor_intCast (f : ℤ) : ((f : ℤ) : ℚ).floor = f := by
  rw [Rat.floor_def']
  simp

theorem halfEvenZ_intCast (f : ℤ) : halfEvenZ ((f : ℤ) : ℚ) = f := by
  unfold halfEvenZ
  rw [ratFloor_intCast]
  norm_num

theorem halfEvenZ_of_eq_int {x : ℚ} {f : ℤ} (h : x = ((f : ℤ) : ℚ)) :
    halfEvenZ x = f := by
  rw [h, halfEvenZ_intCast]

theorem round4_of_eq_int {x : ℚ} {f : ℤ} (h : x * 10000 = ((f : ℤ) : ℚ)) :
    round4 x = ((f : ℤ) : ℚ) / 10000 := by
  unfold round4
  rw [halfEvenZ_of_eq_int h]

theorem format4_of_eq_int {x : ℚ} {f : ℤ} (h : x * 10000 = ((f : ℤ) : ℚ))
    (hf : 0 ≤ f) :
    format4 x =
      String.mk (natChars (f.natAbs / 10000) ++ '.' :: pad4 (f.natAbs % 10000)) := by
  unfold format4
  rw [halfEvenZ_of_eq_int h, if_neg (by omega)]

/-! ### Lemmas: alignment entries and process_gene unfolding -/

theorem lookup_buildAlign_own (rk : ℤ → Option String) (taxid : ℤ)
    (lineage : List ℤ) :
    List.lookup ((rk taxid).getD "no rank") (buildAlign rk taxid lineage) =
      some taxid := by
  unfold buildAlign
  rw [lookup_dset, if_pos rfl]

theorem lookup_buildAlign_ne (rk : ℤ → Option String) (taxid : ℤ)
    (lineage : List ℤ) {r : String} (hne : r ≠ (rk taxid).getD "no rank") :
    List.lookup r (buildAlign rk taxid lineage) =
      (lineage.filter (fun t => rk t == some r)).getLast? := by
  unfold buildAlign
  rw [lookup_dset, if_neg hne, lookup_dictOf]
  unfold lastVal
  rw [rankPairs_filter, List.getLast?_map, Option.map_map]
  simp

theorem process_gene_eq (table : List Row) (gene : String) (q : ℤ) (tl : String)
    (hi op bp : ℚ) (aligns : List (String × List (String × ℤ)))
    (names : ℤ → Option String) (qa : List (String × ℤ)) (gtl : ℤ)
    (rows : List Row) (st : PartState)
    (h1 : List.lookup (intStr q) aligns = some qa)
    (h2 : List.lookup tl qa = some gtl)
    (hrows : rows = geneRows table gene)
    (hst : st = classify aligns names tl gtl (accToTaxid rows)) :
    process_gene table gene q tl hi op bp aligns names =
      (if maxValsD (partBitDict rows st.2.2.1) ≠ 0 ∧
          maxValsD (partBitDict rows st.1) ≠ 0 then
        (hgt_calc gene (maxValsD (partBitDict rows st.2.2.1))
          (maxValsD (partBitDict rows st.1)) st.2.2.2.card st.2.1.card [] hi op bp
          (donorTaxonomyOf aligns names tl (accToTaxid rows)
            (partBitDict rows st.2.2.1))).head?
      else none) := by
  subst hrows
  subst hst
  unfold process_gene
  simp only [h1, h2]

theorem filter_filter_of_imp {α : Type} {p q : α → Bool}
    (h : ∀ a, p a = true → q a = true) :
    ∀ l : List α, (l.filter q).filter p = l.filter p := by
  intro l
  induction l with
  | nil => rfl
  | cons a t ih =>
      cases hq : q a with
      | true =>
          rw [List.filter_cons (p := q), if_pos hq, List.filter_cons,
            List.filter_cons, ih]
      | false =>
          have hp : p a = false := by
            cases hpa : p a
            · rfl
            · rw [h a hpa] at hq; cases hq
          rw [List.filter_cons (p := q), if_neg (by simp [hq]), ih,
            List.filter_cons, if_neg (by simp [hp])]

theorem isRecipHit_classifiable {aligns : List (String × List (String × ℤ))}
    {tl : String} {gtl : ℤ} {p : String × String}
    (h : isRecipHit aligns tl gtl p = true) :
    (List.lookup p.2 aligns).isSome = true := by
  unfold isRecipHit at h
  cases hta : List.lookup p.2 aligns with
  | none => rw [hta] at h; cases h
  | some ta => rfl

theorem isOutHit_classifiable {aligns : List (String × List (String × ℤ))}
    {tl : String} {gtl : ℤ} {p : String × String}
    (h : isOutHit aligns tl gtl p = true) :
    (List.lookup p.2 aligns).isSome = true := by
  unfold isOutHit at h
  cases hta : List.lookup p.2 aligns with
  | none => rw [hta] at h; cases h
  | some ta => rfl

theorem mem_classify_recA {aligns : List (String × List (String × ℤ))}
    {names : ℤ → Option String} {tl : String} {gtl : ℤ}
    {items : List (String × String)} {a : String} :
    a ∈ (classify aligns names tl gtl items).1 ↔
      ∃ p ∈ items, isRecipHit aligns tl gtl p = true ∧ p.1 = a := by
  rw [classify_eq]
  simp only [List.mem_toFinset, List.mem_map, List.mem_filter]
  constructor
  · rintro ⟨p, ⟨hp, hr⟩, hpa⟩
    exact ⟨p, hp, hr, hpa⟩
  · rintro ⟨p, hp, hr, hpa⟩
    exact ⟨p, ⟨hp, hr⟩, hpa⟩

theorem mem_classify_outA {aligns : List (String × List (String × ℤ))}
    {names : ℤ → Option String} {tl : String} {gtl : ℤ}
    {items : List (String × String)} {a : String} :
    a ∈ (classify aligns names tl gtl items).2.2.1 ↔
      ∃ p ∈ items, isOutHit aligns tl gtl p = true ∧ p.1 = a := by
  rw [classify_eq]
  simp only [List.mem_toFinset, List.mem_map, List.mem_filter]
  constructor
  · rintro ⟨p, ⟨hp, hr⟩, hpa⟩
    exact ⟨p, hp, hr, hpa⟩
  · rintro ⟨p, hp, hr, hpa⟩
    exact ⟨p, ⟨hp, hr⟩, hpa⟩

/-! ### Claim theorems -/

theorem GeneResult_taxonomy_mk (g : String) (b : ℚ) (o hx t : String) :
    ({ gene := g, bitscore := b, outPct := o, hgtIndex := hx,
       taxonomy := t } : GeneResult).taxonomy = t := rfl

/-- C1: the HGT decision rule in hgt_calc is a strict three-way conjunction:
the emitted record's label is the donor taxonomy name (or "Not available" when
the donor string is empty) exactly when max_outgroup_bitscore >=
bitscore_parameter AND the 4-decimal-rounded HGT_index >= the HGTIndex
threshold AND the 4-decimal-rounded Out_pct >= the out_pct threshold; if any
one comparison fails the label is the literal "No".  (The equivalence needs
the donor name itself not to be the literal "No".) -/
theorem C1_decision_rule (gene : String) (mo mr : ℚ) (oN rN : ℕ)
    (HGT : List GeneResult) (hi op bp : ℚ) (donor : String)
    (hd : donor ≠ "No") :
    ∃ r : GeneResult,
      hgt_calc gene mo mr oN rN HGT hi op bp donor = HGT ++ [r] ∧
      ((mo ≥ bp ∧ round4 (mo / mr) ≥ hi ∧
          round4 ((oN : ℚ) / ((oN : ℚ) + (rN : ℚ))) ≥ op) →
        r.taxonomy = (if donor = "" then "Not available" else donor)) ∧
      (¬(mo ≥ bp ∧ round4 (mo / mr) ≥ hi ∧
          round4 ((oN : ℚ) / ((oN : ℚ) + (rN : ℚ))) ≥ op) →
        r.taxonomy = "No") ∧
      (r.taxonomy = "No" ↔
        ¬(mo ≥ bp ∧ round4 (mo / mr) ≥ hi ∧
          round4 ((oN : ℚ) / ((oN : ℚ) + (rN : ℚ))) ≥ op)) := by
  refine ⟨{ gene := gene, bitscore := mo,
            outPct := format4 ((oN : ℚ) / ((oN : ℚ) + (rN : ℚ))),
            hgtIndex := format4 (mo / mr),
            taxonomy := if mo ≥ bp ∧ round4 (mo / mr) ≥ hi ∧
                round4 ((oN : ℚ) / ((oN : ℚ) + (rN : ℚ))) ≥ op then
              (if donor = "" then "Not available" else donor)
            else "No" }, rfl, ?_, ?_, ?_⟩
  · intro h
    rw [GeneResult_taxonomy_mk, if_pos h]
  · intro h
    rw [GeneResult_taxonomy_mk, if_neg h]
  · rw [GeneResult_taxonomy_mk]
    constructor
    · intro hno hcond
      rw [if_pos hcond] at hno
      by_cases hde : donor = ""
      · rw [if_pos hde] at hno
        exact absurd hno (by decide)
      · rw [if_neg hde] at hno
        exact hd hno
    · intro h
      rw [if_neg h]

/-- Witness for C1: with outgroup max 150, recipient max 100, 4 outgroup
species, 1 recipient species and thresholds (100, 0.5, 0.8) all three
comparisons hold and the emitted label is the donor name. -/
theorem C1_decision_rule_witness :
    (hgt_calc "g1" 150 100 4 1 [] (1 / 2) (4 / 5) 100 "DonorFam").map
      GeneResult.taxonomy = ["DonorFam"] := by
  obtain ⟨r, he, hpos, hneg, hiff⟩ :=
    C1_decision_rule "g1" 150 100 4 1 [] (1 / 2) (4 / 5) 100 "DonorFam" (by decide)
  have ht := hpos ⟨by norm_num,
    by rw [round4_of_eq_int (f := 15000) (by push_cast; norm_num)]; push_cast; norm_num,
    by rw [round4_of_eq_int (f := 8000) (by push_cast; norm_num)]; push_cast; norm_num⟩
  rw [if_neg (by decide)] at ht
  rw [he]
  simp [ht]

/-- C4: on the concrete inputs max_outgroup_bitscore 150, max recipient 100,
3 outgroup species, 1 recipient species, thresholds (100, 0.5, 0.8), the
scorer emits HGT_index "1.5000", Out_pct "0.7500" and the label "No"
(0.75 < 0.8 makes the decision false). -/
theorem C4_concrete_scenario :
    hgt_calc "gene1" 150 100 3 1 [] (1 / 2) (4 / 5) 100 "DonorFam" =
      [{ gene := "gene1", bitscore := 150, outPct := "0.7500",
         hgtIndex := "1.5000", taxonomy := "No" }] := by
  unfold hgt_calc
  rw [List.nil_append]
  simp only [List.cons.injEq, and_true, GeneResult.mk.injEq, true_and]
  refine ⟨?_, ?_, ?_⟩
  · rw [format4_of_eq_int (f := 7500) (by push_cast; norm_num) (by norm_num)]
    decide
  · rw [format4_of_eq_int (f := 15000) (by push_cast; norm_num) (by norm_num)]
    decide
  · rw [if_neg]
    rintro ⟨-, -, h3⟩
    rw [round4_of_eq_int (f := 7500) (by push_cast; norm_num)] at h3
    push_cast at h3
    norm_num at h3

/-- C6: when the query's own taxon id is not a key of taxonomy_alignments, or
the target rank is absent from the query taxon's alignment entry, process_gene
returns None and the scorer is never reached. -/
theorem C6_unclassifiable_query (table : List Row) (gene : String) (q : ℤ)
    (tl : String) (hi op bp : ℚ) (aligns : List (String × List (String × ℤ)))
    (names : ℤ → Option String)
    (h : List.lookup (intStr q) aligns = none ∨
      ∃ qa, List.lookup (intStr q) aligns = some qa ∧ List.lookup tl qa = none) :
    process_gene table gene q tl hi op bp aligns names = none := by
  rcases h with h | ⟨qa, h1, h2⟩
  · unfold process_gene
    rw [h]
  · unfold process_gene
    simp only [h1, h2]

/-- Witness for C6: with an empty taxonomy index the query lookup fails and
the gene yields no result. -/
theorem C6_unclassifiable_query_witness :
    process_gene [] "g" 1 "family" (1 / 2) (4 / 5) 100 [] (fun _ => none) =
      none :=
  C6_unclassifiable_query [] "g" 1 "family" (1 / 2) (4 / 5) 100 []
    (fun _ => none) (Or.inl rfl)

theorem classify_recA_eq (aligns : List (String × List (String × ℤ)))
    (names : ℤ → Option String) (tl : String) (gtl : ℤ)
    (items : List (String × String)) :
    (classify aligns names tl gtl items).1 =
      ((items.filter (isRecipHit aligns tl gtl)).map (fun p => p.1)).toFinset := by
  rw [classify_eq]

theorem classify_recS_eq (aligns : List (String × List (String × ℤ)))
    (names : ℤ → Option String) (tl : String) (gtl : ℤ)
    (items : List (String × String)) :
    (classify aligns names tl gtl items).2.1 =
      ((items.filter (isRecipHit aligns tl gtl)).map (hitSpecies aligns names)).toFinset := by
  rw [classify_eq]

theorem classify_outA_eq (aligns : List (String × List (String × ℤ)))
    (names : ℤ → Option String) (tl : String) (gtl : ℤ)
    (items : List (String × String)) :
    (classify aligns names tl gtl items).2.2.1 =
      ((items.filter (isOutHit aligns tl gtl)).map (fun p => p.1)).toFinset := by
  rw [classify_eq]

theorem classify_outS_eq (aligns : List (String × List (String × ℤ)))
    (names : ℤ → Option String) (tl : String) (gtl : ℤ)
    (items : List (String × String)) :
    (classify aligns names tl gtl items).2.2.2 =
      ((items.filter (isOutHit aligns tl gtl)).map (hitSpecies aligns names)).toFinset := by
  rw [classify_eq]

theorem species_card_pos_recip (aligns : List (String × List (String × ℤ)))
    (names : ℤ → Option String) (tl : String) (gtl : ℤ) (rows : List Row)
    (h : maxValsD (partBitDict rows
        (classify aligns names tl gtl (accToTaxid rows)).1) ≠ 0) :
    1 ≤ (classify aligns names tl gtl (accToTaxid rows)).2.1.card := by
  have hd : partBitDict rows (classify aligns names tl gtl (accToTaxid rows)).1 ≠ [] := by
    intro he
    exact h (by rw [he]; exact maxValsD_nil)
  have hf : (bitPairs rows).filter
      (fun p => decide (p.1 ∈ (classify aligns names tl gtl (accToTaxid rows)).1)) ≠ [] := by
    intro he
    apply hd
    unfold partBitDict
    rw [he]
    exact dictOf_nil
  obtain ⟨p, _, hpd⟩ := exists_of_filter_ne_nil hf
  have hmem : p.1 ∈ (classify aligns names tl gtl (accToTaxid rows)).1 :=
    of_decide_eq_true hpd
  rw [classify_recA_eq] at hmem
  rw [classify_recS_eq]
  exact Finset.card_pos.mpr (toFinset_map_nonempty (f := fun p => p.1) ⟨p.1, hmem⟩)

theorem species_card_pos_out (aligns : List (String × List (String × ℤ)))
    (names : ℤ → Option String) (tl : String) (gtl : ℤ) (rows : List Row)
    (h : maxValsD (partBitDict rows
        (classify aligns names tl gtl (accToTaxid rows)).2.2.1) ≠ 0) :
    1 ≤ (classify aligns names tl gtl (accToTaxid rows)).2.2.2.card := by
  have hd : partBitDict rows (classify aligns names tl gtl (accToTaxid rows)).2.2.1 ≠ [] := by
    intro he
    exact h (by rw [he]; exact maxValsD_nil)
  have hf : (bitPairs rows).filter
      (fun p => decide (p.1 ∈ (classify aligns names tl gtl (accToTaxid rows)).2.2.1)) ≠ [] := by
    intro he
    apply hd
    unfold partBitDict
    rw [he]
    exact dictOf_nil
  obtain ⟨p, _, hpd⟩ := exists_of_filter_ne_nil hf
  have hmem : p.1 ∈ (classify aligns names tl gtl (accToTaxid rows)).2.2.1 :=
    of_decide_eq_true hpd
  rw [classify_outA_eq] at hmem
  rw [classify_outS_eq]
  exact Finset.card_pos.mpr (toFinset_map_nonempty (f := fun p => p.1) ⟨p.1, hmem⟩)

/-- C5: hgt_calc is reached only when both the max outgroup bitscore and the
max recipient bitscore are nonzero; otherwise process_gene returns None.
Under that guard both partitions' species sets are nonempty, so the divisions
in the scorer (bitscore ratio, denominator max recipient bitscore, and
outgroup species fraction, denominator the species-count sum) have nonzero
denominators. -/
theorem C5_guard_and_denominators (table : List Row) (gene : String) (q : ℤ)
    (tl : String) (hi op bp : ℚ) (aligns : List (String × List (String × ℤ)))
    (names : ℤ → Option String) (qa : List (String × ℤ)) (gtl : ℤ)
    (rows : List Row) (st : PartState)
    (h1 : List.lookup (intStr q) aligns = some qa)
    (h2 : List.lookup tl qa = some gtl)
    (hrows : rows = geneRows table gene)
    (hst : st = classify aligns names tl gtl (accToTaxid rows)) :
    ((maxValsD (partBitDict rows st.2.2.1) = 0 ∨
        maxValsD (partBitDict rows st.1) = 0) →
      process_gene table gene q tl hi op bp aligns names = none) ∧
    (maxValsD (partBitDict rows st.2.2.1) ≠ 0 ∧
        maxValsD (partBitDict rows st.1) ≠ 0 →
      1 ≤ st.2.1.card ∧ 1 ≤ st.2.2.2.card ∧
        st.2.2.2.card + st.2.1.card ≠ 0) := by
  constructor
  · intro hor
    rw [process_gene_eq table gene q tl hi op bp aligns names qa gtl rows st
      h1 h2 hrows hst]
    rw [if_neg]
    rintro ⟨ho, hr⟩
    rcases hor with h | h
    · exact ho h
    · exact hr h
  · rintro ⟨ho, hr⟩
    subst hrows
    subst hst
    have hrec := species_card_pos_recip aligns names tl gtl (geneRows table gene) hr
    have hout := species_card_pos_out aligns names tl gtl (geneRows table gene) ho
    exact ⟨hrec, hout, by omega⟩

/-- Concrete table for the C5 witness: two rows of gene g, one recipient and
one outgroup hit. -/
def tableC5 : List Row :=
  [{ gene := "g", acc := "A", bitscore := 10, taxField := some "1" },
   { gene := "g", acc := "B", bitscore := 20, taxField := some "2" }]

/-- Concrete taxonomy index for the C5 witness. -/
def alignsC5 : List (String × List (String × ℤ)) :=
  [("1", [("family", 5), ("species", 1)]),
   ("2", [("family", 7)]),
   ("9", [("family", 5)])]

/-- Witness for C5: on a concrete table with nonzero maxima in both
partitions, both species counts are at least 1. -/
theorem C5_guard_and_denominators_witness :
    1 ≤ (classify alignsC5 (fun _ => none) "family" 5
        (accToTaxid (geneRows tableC5 "g"))).2.1.card ∧
    1 ≤ (classify alignsC5 (fun _ => none) "family" 5
        (accToTaxid (geneRows tableC5 "g"))).2.2.2.card ∧
    (classify alignsC5 (fun _ => none) "family" 5
        (accToTaxid (geneRows tableC5 "g"))).2.2.2.card +
      (classify alignsC5 (fun _ => none) "family" 5
        (accToTaxid (geneRows tableC5 "g"))).2.1.card ≠ 0 :=
  (C5_guard_and_denominators tableC5 "g" 9 "family" (1 / 2) (4 / 5) 100
    alignsC5 (fun _ => none) [("family", 5)] 5 (geneRows tableC5 "g")
    (classify alignsC5 (fun _ => none) "family" 5 (accToTaxid (geneRows tableC5 "g")))
    (by decide) (by decide) rfl rfl).2 (by constructor <;> decide)

/-- C7: a retained (accession, taxon id) pair whose taxon id is not a key of
taxonomy_alignments is skipped: the accession enters neither accession set,
contributes to neither species set nor bitscore dict, and the classification
of the remaining pairs is exactly that of the classifiable pairs alone. -/
theorem C7_unindexed_taxid_skipped (table : List Row) (gene : String)
    (aligns : List (String × List (String × ℤ))) (names : ℤ → Option String)
    (tl : String) (gtl : ℤ) (a t : String)
    (items : List (String × String)) (st : PartState)
    (hitems : items = accToTaxid (geneRows table gene))
    (hst : st = classify aligns names tl gtl items)
    (hmem : (a, t) ∈ items)
    (hnone : List.lookup t aligns = none) :
    a ∉ st.1 ∧ a ∉ st.2.2.1 ∧
    List.lookup a (partBitDict (geneRows table gene) st.1) = none ∧
    List.lookup a (partBitDict (geneRows table gene) st.2.2.1) = none ∧
    st = classify aligns names tl gtl
      (items.filter (fun p => (List.lookup p.2 aligns).isSome)) := by
  subst hitems
  subst hst
  have hnd := dictOf_fst_nodup (accTaxPairs (geneRows table gene))
  have hA : a ∉ (classify aligns names tl gtl (accToTaxid (geneRows table gene))).1 := by
    intro hin
    obtain ⟨p, hp, hr, hpa⟩ := mem_classify_recA.mp hin
    have hp' : (a, p.2) ∈ accToTaxid (geneRows table gene) := by
      rw [← hpa, Prod.mk.eta]
      exact hp
    have hv : p.2 = t := keys_nodup_val_eq hnd hp' hmem
    unfold isRecipHit at hr
    rw [hv, hnone] at hr
    simp at hr
  have hB : a ∉ (classify aligns names tl gtl (accToTaxid (geneRows table gene))).2.2.1 := by
    intro hin
    obtain ⟨p, hp, hr, hpa⟩ := mem_classify_outA.mp hin
    have hp' : (a, p.2) ∈ accToTaxid (geneRows table gene) := by
      rw [← hpa, Prod.mk.eta]
      exact hp
    have hv : p.2 = t := keys_nodup_val_eq hnd hp' hmem
    unfold isOutHit at hr
    rw [hv, hnone] at hr
    simp at hr
  refine ⟨hA, hB, ?_, ?_, ?_⟩
  · unfold partBitDict
    rw [lookup_dictOf]
    apply lastVal_eq_none
    intro p hp
    rcases List.mem_filter.mp hp with ⟨-, hpd⟩
    cases hba : p.1 == a with
    | false => rfl
    | true =>
        exfalso
        have hpa : p.1 = a := by simpa using hba
        rw [hpa] at hpd
        exact hA (of_decide_eq_true hpd)
  · unfold partBitDict
    rw [lookup_dictOf]
    apply lastVal_eq_none
    intro p hp
    rcases List.mem_filter.mp hp with ⟨-, hpd⟩
    cases hba : p.1 == a with
    | false => rfl
    | true =>
        exfalso
        have hpa : p.1 = a := by simpa using hba
        rw [hpa] at hpd
        exact hB (of_decide_eq_true hpd)
  · rw [classify_eq, classify_eq,
      filter_filter_of_imp (fun x hx => isRecipHit_classifiable hx),
      filter_filter_of_imp (fun x hx => isOutHit_classifiable hx)]

/-- Concrete table for the C7 witness: one classifiable and one unindexed
hit. -/
def tableC7 : List Row :=
  [{ gene := "g", acc := "B", bitscore := 20, taxField := some "1" },
   { gene := "g", acc := "A", bitscore := 10, taxField := some "42" }]

/-- Concrete taxonomy index for the C7 witness: taxid "42" is not a key. -/
def alignsC7 : List (String × List (String × ℤ)) :=
  [("1", [("family", 5)])]

/-- Witness for C7: the accession with unindexed taxid "42" lands in neither
partition. -/
theorem C7_unindexed_taxid_skipped_witness :
    "A" ∉ (classify alignsC7 (fun _ => none) "family" 5
        (accToTaxid (geneRows tableC7 "g"))).1 ∧
    "A" ∉ (classify alignsC7 (fun _ => none) "family" 5
        (accToTaxid (geneRows tableC7 "g"))).2.2.1 := by
  have h := C7_unindexed_taxid_skipped tableC7 "g" alignsC7 (fun _ => none)
    "family" 5 "A" "42" (accToTaxid (geneRows tableC7 "g"))
    (classify alignsC7 (fun _ => none) "family" 5
      (accToTaxid (geneRows tableC7 "g")))
    rfl rfl (by decide) (by decide)
  exact ⟨h.1, h.2.1⟩

/-- C10: the per-gene accession maps are Python dicts built over the row
sequence, so for a duplicated accession only the last row is effective: the
lookup used for classification returns the last row's taxon id, that taxon id
alone decides the partition, and the per-partition bitscore dict holds the
last matching row's bitscore. -/
theorem C10_last_occurrence_wins (table : List Row) (gene : String)
    (a t : String) (rows : List Row) (items : List (String × String))
    (hrows : rows = geneRows table gene)
    (hitems : items = accTaxPairs rows)
    (hlast : lastVal items a = some t) :
    List.lookup a (accToTaxid rows) = some t ∧
    (∀ (aligns : List (String × List (String × ℤ)))
        (names : ℤ → Option String) (tl : String) (gtl : ℤ),
      (a ∈ (classify aligns names tl gtl (accToTaxid rows)).1 ↔
        isRecipHit aligns tl gtl (a, t) = true) ∧
      (a ∈ (classify aligns names tl gtl (accToTaxid rows)).2.2.1 ↔
        isOutHit aligns tl gtl (a, t) = true)) ∧
    (∀ part : Finset String,
      List.lookup a (partBitDict rows part) =
        lastVal ((bitPairs rows).filter (fun p => decide (p.1 ∈ part))) a) := by
  subst hrows
  subst hitems
  have h1 : List.lookup a (accToTaxid (geneRows table gene)) = some t := by
    unfold accToTaxid
    rw [lookup_dictOf]
    exact hlast
  have hmem : (a, t) ∈ accToTaxid (geneRows table gene) := mem_of_lookup_eq_some h1
  have hnd := dictOf_fst_nodup (accTaxPairs (geneRows table gene))
  refine ⟨h1, ?_, ?_⟩
  · intro aligns names tl gtl
    constructor
    · constructor
      · intro hin
        obtain ⟨p, hp, hr, hpa⟩ := mem_classify_recA.mp hin
        have hp' : (a, p.2) ∈ accToTaxid (geneRows table gene) := by
          rw [← hpa, Prod.mk.eta]
          exact hp
        have hv : p.2 = t := keys_nodup_val_eq hnd hp' hmem
        have hpt : p = (a, t) := by
          rw [← hpa, ← hv]
        rw [hpt] at hr
        exact hr
      · intro hr
        exact mem_classify_recA.mpr ⟨(a, t), hmem, hr, rfl⟩
    · constructor
      · intro hin
        obtain ⟨p, hp, hr, hpa⟩ := mem_classify_outA.mp hin
        have hp' : (a, p.2) ∈ accToTaxid (geneRows table gene) := by
          rw [← hpa, Prod.mk.eta]
          exact hp
        have hv : p.2 = t := keys_nodup_val_eq hnd hp' hmem
        have hpt : p = (a, t) := by
          rw [← hpa, ← hv]
        rw [hpt] at hr
        exact hr
      · intro hr
        exact mem_classify_outA.mpr ⟨(a, t), hmem, hr, rfl⟩
  · intro part
    unfold partBitDict
    rw [lookup_dictOf]

/-- Concrete table for the C10 witness: accession A occurs twice with
different taxon ids and bitscores. -/
def tableC10 : List Row :=
  [{ gene := "g", acc := "A", bitscore := 10, taxField := some "1" },
   { gene := "g", acc := "A", bitscore := 20, taxField := some "2" }]

/-- Witness for C10: the lookup used for classification returns the taxon id
of accession A's last row. -/
theorem C10_last_occurrence_wins_witness :
    List.lookup "A" (accToTaxid (geneRows tableC10 "g")) = some "2" :=
  (C10_last_occurrence_wins tableC10 "g" "A" "2" (geneRows tableC10 "g")
    (accTaxPairs (geneRows tableC10 "g")) rfl rfl (by decide)).1

theorem hitSpecies_eq_unknown {aligns : List (String × List (String × ℤ))}
    {names : ℤ → Option String} {p : String × String}
    (h : speciesResolvable aligns names p = false) :
    hitSpecies aligns names p = "Unknown" := by
  unfold hitSpecies
  unfold speciesResolvable at h
  cases hta : List.lookup p.2 aligns with
  | none => rfl
  | some ta =>
      rw [hta] at h
      have h1 : (match List.lookup "species" ta with
          | none => false
          | some sid => (names sid).isSome) = false := h
      show speciesName ta names = "Unknown"
      unfold speciesName
      cases hsp : List.lookup "species" ta with
      | none => rfl
      | some sid =>
          rw [hsp] at h1
          have h2 : (names sid).isSome = false := h1
          show (names sid).getD "Unknown" = "Unknown"
          cases hn : names sid with
          | none => rfl
          | some nm =>
              rw [hn] at h2
              simp at h2

/-- C8: a classified accession whose taxon has no resolvable species-level
name contributes the literal sentinel "Unknown" to its partition's species
set; since the species collection is a set, all unresolvable accessions of one
partition together contribute at most one entry to that partition's species
count. -/
theorem C8_unknown_sentinel (aligns : List (String × List (String × ℤ)))
    (names : ℤ → Option String) (tl : String) (gtl : ℤ)
    (items : List (String × String)) (p : String × String) (st : PartState)
    (hst : st = classify aligns names tl gtl items)
    (hp : p ∈ items)
    (hres : speciesResolvable aligns names p = false) :
    hitSpecies aligns names p = "Unknown" ∧
    (isRecipHit aligns tl gtl p = true → "Unknown" ∈ st.2.1) ∧
    (isOutHit aligns tl gtl p = true → "Unknown" ∈ st.2.2.2) ∧
    st.2.1.card ≤ ((items.filter (fun x => isRecipHit aligns tl gtl x &&
        speciesResolvable aligns names x)).map
          (hitSpecies aligns names)).toFinset.card + 1 ∧
    st.2.2.2.card ≤ ((items.filter (fun x => isOutHit aligns tl gtl x &&
        speciesResolvable aligns names x)).map
          (hitSpecies aligns names)).toFinset.card + 1 := by
  subst hst
  have hunk := hitSpecies_eq_unknown hres
  refine ⟨hunk, ?_, ?_, ?_, ?_⟩
  · intro hr
    rw [classify_recS_eq, ← hunk, List.mem_toFinset]
    exact List.mem_map.mpr ⟨p, List.mem_filter.mpr ⟨hp, hr⟩, rfl⟩
  · intro hr
    rw [classify_outS_eq, ← hunk, List.mem_toFinset]
    exact List.mem_map.mpr ⟨p, List.mem_filter.mpr ⟨hp, hr⟩, rfl⟩
  · rw [classify_recS_eq]
    have hsub : ((items.filter (isRecipHit aligns tl gtl)).map
        (hitSpecies aligns names)).toFinset ⊆
        insert "Unknown" (((items.filter (fun x => isRecipHit aligns tl gtl x &&
          speciesResolvable aligns names x)).map
            (hitSpecies aligns names)).toFinset) := by
      intro x hx
      rw [List.mem_toFinset] at hx
      obtain ⟨q, hq, hqx⟩ := List.mem_map.mp hx
      rcases List.mem_filter.mp hq with ⟨hqi, hqr⟩
      cases hqs : speciesResolvable aligns names q with
      | true =>
          refine Finset.mem_insert_of_mem ?_
          rw [List.mem_toFinset]
          exact List.mem_map.mpr
            ⟨q, List.mem_filter.mpr ⟨hqi, by rw [hqr, hqs]; rfl⟩, hqx⟩
      | false =>
          rw [← hqx, hitSpecies_eq_unknown hqs]
          exact Finset.mem_insert_self _ _
    exact (Finset.card_le_card hsub).trans (Finset.card_insert_le _ _)
  · rw [classify_outS_eq]
    have hsub : ((items.filter (isOutHit aligns tl gtl)).map
        (hitSpecies aligns names)).toFinset ⊆
        insert "Unknown" (((items.filter (fun x => isOutHit aligns tl gtl x &&
          speciesResolvable aligns names x)).map
            (hitSpecies aligns names)).toFinset) := by
      intro x hx
      rw [List.mem_toFinset] at hx
      obtain ⟨q, hq, hqx⟩ := List.mem_map.mp hx
      rcases List.mem_filter.mp hq with ⟨hqi, hqr⟩
      cases hqs : speciesResolvable aligns names q with
      | true =>
          refine Finset.mem_insert_of_mem ?_
          rw [List.mem_toFinset]
          exact List.mem_map.mpr
            ⟨q, List.mem_filter.mpr ⟨hqi, by rw [hqr, hqs]; rfl⟩, hqx⟩
      | false =>
          rw [← hqx, hitSpecies_eq_unknown hqs]
          exact Finset.mem_insert_self _ _
    exact (Finset.card_le_card hsub).trans (Finset.card_insert_le _ _)

/-- Concrete taxonomy index for the C8 witness: no species rank at all. -/
def alignsC8 : List (String × List (String × ℤ)) :=
  [("1", [("family", 5)])]

/-- Witness for C8: the recipient species set of a species-unresolvable
recipient hit contains the sentinel "Unknown". -/
theorem C8_unknown_sentinel_witness :
    "Unknown" ∈ (classify alignsC8 (fun _ => none) "family" 5
      [("A", "1")]).2.1 :=
  (C8_unknown_sentinel alignsC8 (fun _ => none) "family" 5 [("A", "1")]
    ("A", "1") (classify alignsC8 (fun _ => none) "family" 5 [("A", "1")])
    rfl (by decide) (by decide)).2.1 (by decide)

theorem getLast?_ne_none {α : Type} {l : List α} (h : l ≠ []) :
    ∃ y, l.getLast? = some y := by
  induction l with
  | nil => exact absurd rfl h
  | cons a t ih =>
      cases t with
      | nil => exact ⟨a, rfl⟩
      | cons b u =>
          obtain ⟨y, hy⟩ := ih (by simp)
          exact ⟨y, by rw [List.getLast?_cons_cons]; exact hy⟩

/-- Concrete rank oracle for the C2 counterexample: two ancestors share the
rank "no rank", as in every real NCBI lineage. -/
def rkC2 : ℤ → Option String := fun t =>
  if t = 9606 then some "species"
  else if t = 1 ∨ t = 131567 then some "no rank" else none

/-- Concrete lineage oracle for the C2 counterexample. -/
def linC2 : ℤ → Option (List ℤ) := fun t =>
  if t = 9606 then some [1, 131567, 9606] else none

/-- Counterexample to C2 as stated: ancestor 1 of taxon 9606 has the known
rank "no rank", yet the built alignment maps "no rank" to 131567 (the later
lineage member of the same rank), not to 1. -/
theorem C2_counterexample :
    (1 : ℤ) ∈ [(1 : ℤ), 131567, 9606] ∧
    rkC2 1 = some "no rank" ∧
    List.lookup (intStr 9606) (taxonomyAlignmentsOf ["9606"] 9606 linC2 rkC2) =
      some (buildAlign rkC2 9606 [1, 131567, 9606]) ∧
    List.lookup "no rank" (buildAlign rkC2 9606 [1, 131567, 9606]) =
      some 131567 ∧
    ¬ List.lookup "no rank" (buildAlign rkC2 9606 [1, 131567, 9606]) =
      some 1 := by
  decide

/-- C2 (amended): for every taxon T whose lineage lookup succeeds, the built
alignment maps T's own rank (falling back to "no rank") to T itself; every
known ancestor rank is present as a key; and the value at an ancestor rank r
is the ancestor A only when A is the last lineage member of rank r and r is
not T's own (fallback) rank — later same-rank lineage members and the forced
own-rank entry overwrite earlier ones. -/
theorem C2_own_rank_and_ancestors (cols : List String) (q T : ℤ)
    (lin : ℤ → Option (List ℤ)) (rk : ℤ → Option String) (L : List ℤ)
    (hT : T ∈ uniqueTaxids cols q) (hlin : lin T = some L) :
    List.lookup (intStr T) (taxonomyAlignmentsOf cols q lin rk) =
      some (buildAlign rk T L) ∧
    List.lookup ((rk T).getD "no rank") (buildAlign rk T L) = some T ∧
    (∀ A r, A ∈ L → rk A = some r →
      (∃ v, List.lookup r (buildAlign rk T L) = some v) ∧
      (r ≠ (rk T).getD "no rank" →
        (L.filter (fun t => rk t == some r)).getLast? = some A →
        List.lookup r (buildAlign rk T L) = some A)) := by
  refine ⟨lookup_taxAlign_some hT hlin, lookup_buildAlign_own rk T L, ?_⟩
  intro A r hA hr
  constructor
  · by_cases hre : r = (rk T).getD "no rank"
    · exact ⟨T, by rw [hre, lookup_buildAlign_own]⟩
    · have hmemf : A ∈ L.filter (fun t => rk t == some r) :=
        List.mem_filter.mpr ⟨hA, by rw [hr]; simp⟩
      obtain ⟨y, hy⟩ := getLast?_ne_none (List.ne_nil_of_mem hmemf)
      exact ⟨y, by rw [lookup_buildAlign_ne rk T L hre, hy]⟩
  · intro hre hlast
    rw [lookup_buildAlign_ne rk T L hre, hlast]

/-- Witness for the amended C2: taxon 9606's own rank "species" maps to 9606
itself in the concrete index. -/
theorem C2_own_rank_and_ancestors_witness :
    List.lookup ((rkC2 9606).getD "no rank")
      (buildAlign rkC2 9606 [1, 131567, 9606]) = some 9606 :=
  (C2_own_rank_and_ancestors ["9606"] 9606 9606 linC2 rkC2 [1, 131567, 9606]
    (by decide) rfl).2.1

/-- Counterexample to C3 as stated: in the field "5;7" the id 5 appears only
in a non-terminal position (the last split element is "7"), yet the taxonomy
index builder collects 5 into the unique-taxid set. -/
theorem C3_counterexample :
    (5 : ℤ) ∈ uniqueTaxids ["5;7"] 1 ∧
    lastTid "5;7" = "7" ∧ ¬ lastTid "5;7" = "5" := by
  decide

/-- C3 (amended): the taxonomy index builder collects every id of every
semicolon-split list (all positions, via explode), nonempty and parseable,
plus the query taxon id — not only the terminal id of each list. -/
theorem C3_collects_all_positions (cols : List String) (q : ℤ) :
    q ∈ uniqueTaxids cols q ∧
    ∀ n : ℤ, n ∈ uniqueTaxids cols q ↔
      n = q ∨ ∃ s ∈ cols.flatMap (fun c => pySplitSemi c),
        s ≠ "" ∧ parseTaxid s = some n :=
  ⟨mem_uniqueTaxids.mpr (Or.inl rfl), fun _ => mem_uniqueTaxids⟩

/-- C9: the index keys are the canonical decimal strings str(int(float(tid)))
while the per-gene lookup uses the raw last substring; a raw string that
differs from the canonical form of its parsed value is never a key, so its
accession is skipped as unclassifiable even though the id itself was
indexed. -/
theorem C9_raw_string_lookup_mismatch (table : List Row) (q : ℤ)
    (lin : ℤ → Option (List ℤ)) (rk : ℤ → Option String) (s : String) (n : ℤ)
    (L : List ℤ)
    (hp : parseTaxid s = some n) (hne : s ≠ intStr n)
    (hin : s ∈ (colsOfTable table).flatMap (fun c => pySplitSemi c))
    (hlin : lin n = some L) :
    List.lookup (intStr n) (taxonomyAlignmentsOf (colsOfTable table) q lin rk) =
      some (buildAlign rk n L) ∧
    List.lookup s (taxonomyAlignmentsOf (colsOfTable table) q lin rk) = none ∧
    (∀ (names : ℤ → Option String) (tl : String) (gtl : ℤ) (st : PartState)
        (a : String),
      classifyStep (taxonomyAlignmentsOf (colsOfTable table) q lin rk)
        names tl gtl st (a, s) = st) := by
  have hs0 : s ≠ "" := by
    intro he
    rw [he] at hp
    have h0 : parseTaxid "" = none := rfl
    rw [h0] at hp
    exact Option.noConfusion hp
  have hn : n ∈ uniqueTaxids (colsOfTable table) q :=
    mem_uniqueTaxids.mpr (Or.inr ⟨s, hin, hs0, hp⟩)
  have h2 : List.lookup s (taxonomyAlignmentsOf (colsOfTable table) q lin rk) =
      none := lookup_taxAlign_none hp hne
  refine ⟨lookup_taxAlign_some hn hlin, h2, ?_⟩
  intro names tl gtl st a
  unfold classifyStep
  simp only [h2]

/-- Concrete table for the C9 witness: the raw taxid substring is "9606.0". -/
def tableC9 : List Row :=
  [{ gene := "g", acc := "acc1", bitscore := 50, taxField := some "9606.0" }]

/-- Concrete lineage oracle for the C9 witness. -/
def linC9 : ℤ → Option (List ℤ) := fun t =>
  if t = 9606 then some [9606] else none

/-- Concrete rank oracle for the C9 witness. -/
def rkC9 : ℤ → Option String := fun t =>
  if t = 9606 then some "species" else none

/-- Witness for C9: "9606.0" parses to 9606 and 9606 is indexed under the key
"9606", but the raw string "9606.0" is not a key. -/
theorem C9_raw_string_lookup_mismatch_witness :
    List.lookup "9606.0"
      (taxonomyAlignmentsOf (colsOfTable tableC9) 1 linC9 rkC9) = none ∧
    List.lookup (intStr 9606)
      (taxonomyAlignmentsOf (colsOfTable tableC9) 1 linC9 rkC9) =
      some (buildAlign rkC9 9606 [9606]) := by
  have h := C9_raw_string_lookup_mismatch tableC9 1 linC9 rkC9 "9606.0" 9606
    [9606] (by decide) (by decide) (by decide) rfl
  exact ⟨h.2.1, h.1⟩
